import Mathlib

/-!
# Verification of the pyalloc backtest core

Shallow embedding of `pyalloc/backtest/portfolio.py` and
`pyalloc/backtest/strategy.py`.  Weights, returns and costs are modelled
with `ℚ` (exact arithmetic); Python dicts are modelled as association
lists iterated in insertion order (Python 3.7+ dict order); a Python
`KeyError` / `ZeroDivisionError` / failed `assert` is modelled by an
explicit error value, together with the state the object is left in at
the moment the exception is raised (Python mutates in place, so the
partially-updated state is observable).
-/

/-- Errors raised by `Portfolio` methods:
`unknownAsset` models the `Exception` in `__getitem__` / a failed dict
lookup of a target weight, `missingQuote` the `KeyError` from
`Context.cur_quotes[sid]`, `weightSetMismatch` the failed `assert` in
`update_by_rebalance`, and `zeroDivision` Python's `ZeroDivisionError`
when the post-drift total weight is zero. -/
inductive PError where
  | unknownAsset (sid : String)
  | missingQuote (sid : String)
  | weightSetMismatch
  | zeroDivision
deriving DecidableEq, Repr

/-- The state of `Portfolio` (`portfolio.py`): cash weight, last period
return, last cost, last turnover, the trading cost ratio, and the asset
weight dict `self._weight` as an association list in iteration order. -/
structure Portfolio where
  cash_weight : ℚ
  pct_change : ℚ
  cost : ℚ
  turnover : ℚ
  trading_cost_ratio : ℚ
  weight : List (String × ℚ)
deriving DecidableEq, Repr

/-- The `PInfo` namedtuple of `portfolio.py`: the per-period result
record.  `asset_weight` is the snapshot `tuple(self._weight.items())`. -/
structure PInfo where
  time : Int
  pct_change : ℚ
  turnover : ℚ
  cost : ℚ
  cash_weight : ℚ
  asset_weight : List (String × ℚ)
deriving DecidableEq, Repr

/-- Sum of the weight values of an association list. -/
def sumW (l : List (String × ℚ)) : ℚ := (l.map Prod.snd).sum

/-- Result of the drift loop of `update_by_price` (lines 46-52):
the weight list after the loop, the accumulated `_pct_change`, the
accumulated `total_asset_weight`, and — when `Context.cur_quotes[sid]`
raised a `KeyError` — the offending sid.  On error the weights of assets
iterated before the missing one are already drifted, the rest are
untouched. -/
structure DriftRes where
  weights : List (String × ℚ)
  pct : ℚ
  total : ℚ
  err : Option String
deriving DecidableEq, Repr

/-- The per-asset loop of `update_by_price`: for each sid, accumulate
`pct += w * quote.pct_change`, then set `w := w * (1 + pct_change)`,
then `total += w`.  A missing quote raises before the current asset's
weight is touched. -/
def driftLoop (quotes : String → Option ℚ) :
    List (String × ℚ) → ℚ → ℚ → DriftRes
  | [], pct, total => ⟨[], pct, total, none⟩
  | (sid, w) :: rest, pct, total =>
    match quotes sid with
    | none => ⟨(sid, w) :: rest, pct, total, some sid⟩
    | some pc =>
      let w1 := w * (1 + pc)
      let r := driftLoop quotes rest (pct + w * pc) (total + w1)
      ⟨(sid, w1) :: r.weights, r.pct, r.total, r.err⟩

/-- `Portfolio.update_by_price` (portfolio.py lines 35-61).  Returns the
state of the object after the call together with the raised error, if
any.  `_pct_change`, `_cost` and `_turnover` are reset first; after the
drift loop the cash weight is added to the total and every asset weight
and the cash weight are divided by it (a zero total raises
`ZeroDivisionError`, leaving the drifted, un-normalized weights). -/
def update_by_price (p : Portfolio) (quotes : String → Option ℚ) :
    Portfolio × Option PError :=
  let r := driftLoop quotes p.weight 0 0
  match r.err with
  | some sid =>
    ({ p with weight := r.weights, pct_change := r.pct, cost := 0, turnover := 0 },
      some (.missingQuote sid))
  | none =>
    let t := r.total + p.cash_weight
    if t = 0 then
      ({ p with weight := r.weights, pct_change := r.pct, cost := 0, turnover := 0 },
        some .zeroDivision)
    else
      ({ p with
          weight := r.weights.map (fun kv => (kv.1, kv.2 / t)),
          cash_weight := p.cash_weight / t,
          pct_change := r.pct, cost := 0, turnover := 0 }, none)

/-- Result of the rebalance loop of `update_by_rebalance` (lines 74-84). -/
structure RebalRes where
  weights : List (String × ℚ)
  pct : ℚ
  tov : ℚ
  total : ℚ
  err : Option PError
deriving DecidableEq, Repr

/-- The per-asset loop of `update_by_rebalance`: for each sid, in
weight-dict iteration order, `turnover += |w - target[sid]|`, then
`w := target[sid] - turnover * trading_cost_ratio` (the cumulative
turnover so far, including the current asset), then
`pct += w * quote.pct_change`, then `w := w * (1 + pct_change)`, then
`total += w`.  A missing quote raises after the weight was already set
to its pre-drift value. -/
def rebalLoop (quotes : String → Option ℚ) (target : List (String × ℚ))
    (ratio : ℚ) : List (String × ℚ) → ℚ → ℚ → ℚ → RebalRes
  | [], pct, tov, total => ⟨[], pct, tov, total, none⟩
  | (sid, w) :: rest, pct, tov, total =>
    match target.lookup sid with
    | none => ⟨(sid, w) :: rest, pct, tov, total, some (.unknownAsset sid)⟩
    | some twv =>
      let tov1 := tov + |w - twv|
      let w1 := twv - tov1 * ratio
      match quotes sid with
      | none => ⟨(sid, w1) :: rest, pct, tov1, total, some (.missingQuote sid)⟩
      | some pc =>
        let pct1 := pct + w1 * pc
        let w2 := w1 * (1 + pc)
        let r := rebalLoop quotes target ratio rest pct1 tov1 (total + w2)
        ⟨(sid, w2) :: r.weights, r.pct, r.tov, r.total, r.err⟩

/-- The `assert self._weight.keys() == target_weight.keys()` check:
Python dict key views compare as sets. -/
def sameKeys (a b : List (String × ℚ)) : Bool :=
  a.all (fun kv => (b.map Prod.fst).contains kv.1) &&
  b.all (fun kv => (a.map Prod.fst).contains kv.1)

/-- `Portfolio.update_by_rebalance` (portfolio.py lines 63-95).  The key
set assert runs first (state untouched on mismatch); then the counters
are reset, the rebalance loop runs, `_cost := _turnover *
_trading_cost_ratio`, and the weights and cash are normalized by the
post-drift total exactly as in `update_by_price`. -/
def update_by_rebalance (p : Portfolio) (target : List (String × ℚ))
    (quotes : String → Option ℚ) : Portfolio × Option PError :=
  if sameKeys p.weight target then
    let r := rebalLoop quotes target p.trading_cost_ratio p.weight 0 0 0
    match r.err with
    | some e =>
      ({ p with
          weight := r.weights, pct_change := r.pct, turnover := r.tov,
          cost := 0 }, some e)
    | none =>
      let c := r.tov * p.trading_cost_ratio
      let t := r.total + p.cash_weight
      if t = 0 then
        ({ p with
            weight := r.weights, pct_change := r.pct, turnover := r.tov,
            cost := c }, some .zeroDivision)
      else
        ({ p with
            weight := r.weights.map (fun kv => (kv.1, kv.2 / t)),
            cash_weight := p.cash_weight / t,
            pct_change := r.pct, turnover := r.tov, cost := c }, none)
  else (p, some .weightSetMismatch)

/-- `Portfolio.get_portfolio_info` (portfolio.py lines 105-108): the
snapshot record, with `Context.cur_time` passed explicitly. -/
def get_portfolio_info (time : Int) (p : Portfolio) : PInfo :=
  ⟨time, p.pct_change, p.turnover, p.cost, p.cash_weight, p.weight⟩

/-! ## Helper lemmas about the two update loops -/

lemma sumW_nil : sumW [] = 0 := rfl

lemma sumW_cons (kv : String × ℚ) (l : List (String × ℚ)) :
    sumW (kv :: l) = kv.2 + sumW l := by
  simp [sumW]

lemma sumW_map_div (l : List (String × ℚ)) (t : ℚ) :
    sumW (l.map (fun kv => (kv.1, kv.2 / t))) = sumW l / t := by
  induction l with
  | nil => simp [sumW]
  | cons kv rest ih =>
    simp only [List.map_cons, sumW_cons, ih]
    rw [add_div]

/-- When the drift loop completes without error, the returned total is
the incoming total plus the sum of the returned (drifted) weights. -/
lemma driftLoop_total (quotes : String → Option ℚ) :
    ∀ (wl : List (String × ℚ)) (pct total : ℚ),
      (driftLoop quotes wl pct total).err = none →
      (driftLoop quotes wl pct total).total =
        total + sumW (driftLoop quotes wl pct total).weights := by
  intro wl
  induction wl with
  | nil => intro pct total _; simp [driftLoop, sumW]
  | cons kv rest ih =>
    intro pct total herr
    obtain ⟨sid, w⟩ := kv
    cases hq : quotes sid with
    | none => simp [driftLoop, hq] at herr
    | some pc =>
      simp only [driftLoop, hq] at herr ⊢
      rw [sumW_cons]
      have := ih (pct + w * pc) (total + w * (1 + pc)) herr
      rw [this]
      ring

/-- When the rebalance loop completes without error, the returned total
is the incoming total plus the sum of the returned weights. -/
lemma rebalLoop_total (quotes : String → Option ℚ)
    (target : List (String × ℚ)) (ratio : ℚ) :
    ∀ (wl : List (String × ℚ)) (pct tov total : ℚ),
      (rebalLoop quotes target ratio wl pct tov total).err = none →
      (rebalLoop quotes target ratio wl pct tov total).total =
        total + sumW (rebalLoop quotes target ratio wl pct tov total).weights := by
  intro wl
  induction wl with
  | nil => intro pct tov total _; simp [rebalLoop, sumW]
  | cons kv rest ih =>
    intro pct tov total herr
    obtain ⟨sid, w⟩ := kv
    cases ht : target.lookup sid with
    | none => simp [rebalLoop, ht] at herr
    | some twv =>
      cases hq : quotes sid with
      | none => simp [rebalLoop, ht, hq] at herr
      | some pc =>
        simp only [rebalLoop, ht, hq] at herr ⊢
        rw [sumW_cons]
        have := ih (pct + (twv - (tov + |w - twv|) * ratio) * pc)
          (tov + |w - twv|)
          (total + (twv - (tov + |w - twv|) * ratio) * (1 + pc)) herr
        rw [this]
        ring

/-- Claim C1: immediately after every `update_by_price` or
`update_by_rebalance` call that completes (returns without raising), the
sum of all asset weights plus the cash weight equals 1 exactly, in exact
arithmetic. -/
theorem C1_weights_sum_to_one (p p1 p2 : Portfolio)
    (quotes : String → Option ℚ) (target : List (String × ℚ)) :
    (update_by_price p quotes = (p1, none) →
      sumW p1.weight + p1.cash_weight = 1) ∧
    (update_by_rebalance p target quotes = (p2, none) →
      sumW p2.weight + p2.cash_weight = 1) := by
  constructor
  · intro h
    simp only [update_by_price] at h
    cases herr : (driftLoop quotes p.weight 0 0).err with
    | some sid => rw [herr] at h; simp at h
    | none =>
      rw [herr] at h
      by_cases ht : (driftLoop quotes p.weight 0 0).total + p.cash_weight = 0
      · rw [if_pos ht] at h; simp at h
      · rw [if_neg ht] at h
        injection h with h1 h2
        subst h1
        simp only [sumW_map_div]
        rw [div_add_div_same]
        have := driftLoop_total quotes p.weight 0 0 herr
        rw [zero_add] at this
        rw [← this, div_self ht]
  · intro h
    simp only [update_by_rebalance] at h
    by_cases hk : sameKeys p.weight target = true
    · rw [if_pos hk] at h
      cases herr : (rebalLoop quotes target p.trading_cost_ratio p.weight 0 0 0).err with
      | some e => rw [herr] at h; simp at h
      | none =>
        rw [herr] at h
        by_cases ht : (rebalLoop quotes target p.trading_cost_ratio p.weight 0 0 0).total
            + p.cash_weight = 0
        · rw [if_pos ht] at h; simp at h
        · rw [if_neg ht] at h
          injection h with h1 h2
          subst h1
          simp only [sumW_map_div]
          rw [div_add_div_same]
          have := rebalLoop_total quotes target p.trading_cost_ratio p.weight 0 0 0 herr
          rw [zero_add] at this
          rw [← this, div_self ht]
    · rw [if_neg hk] at h
      simp at h

/-- A two-asset example portfolio: A and B at weight 1/2 each, no cash,
zero trading cost. -/
def exPortfolio : Portfolio :=
  ⟨0, 0, 0, 0, 0, [("A", 1/2), ("B", 1/2)]⟩

/-- Quotes for the example: A gains 10%, B loses 10%. -/
def exQuotes : String → Option ℚ :=
  fun s => if s = "A" then some (1/10) else if s = "B" then some (-(1/10)) else none

/-- The state of `exPortfolio` after `update_by_price exPortfolio exQuotes`. -/
def exPortfolioAfter : Portfolio :=
  ⟨0, 0, 0, 0, 0, [("A", 11/20), ("B", 9/20)]⟩

theorem C1_weights_sum_to_one_witness :
    sumW exPortfolioAfter.weight + exPortfolioAfter.cash_weight = 1 :=
  (C1_weights_sum_to_one exPortfolio exPortfolioAfter exPortfolio exQuotes []).1
    (by
      simp +decide [update_by_price, driftLoop, exPortfolio, exQuotes, exPortfolioAfter]
      norm_num)

/-! ## Idempotent rebalance (C6) -/

/-- In an association list with distinct keys, looking up the key of a
member pair returns its value. -/
lemma lookup_self {l : List (String × ℚ)} (hnd : (l.map Prod.fst).Nodup) :
    ∀ kv ∈ l, l.lookup kv.1 = some kv.2 := by
  induction l with
  | nil => simp
  | cons hd tl ih =>
    intro kv hkv
    obtain ⟨k, v⟩ := hd
    simp only [List.map_cons, List.nodup_cons] at hnd
    rcases List.mem_cons.mp hkv with h | h
    · subst h; simp [List.lookup]
    · have hne : kv.1 ≠ k := by
        intro he
        exact hnd.1 (he ▸ List.mem_map.mpr ⟨kv, h, rfl⟩)
      have hbe : (kv.1 == k) = false := beq_eq_false_iff_ne.mpr hne
      simpa [List.lookup, hbe] using ih hnd.2 kv h

/-- The Python key-set assert always passes when target and holdings are
the same dict. -/
lemma sameKeys_self (l : List (String × ℚ)) : sameKeys l l = true := by
  simp only [sameKeys, Bool.and_eq_true, List.all_eq_true]
  constructor <;> intro kv hkv <;> obtain ⟨a, b⟩ := kv <;>
    · simp only [List.contains, List.elem_eq_mem, decide_eq_true_eq, List.mem_map]
      exact ⟨(a, b), hkv, rfl⟩

/-- When every asset's target weight equals its current weight, every
turnover increment `|w - target[sid]|` is zero, so the loop's cumulative
turnover never moves. -/
lemma rebalLoop_tov_self (quotes : String → Option ℚ)
    (target : List (String × ℚ)) (ratio : ℚ) :
    ∀ (wl : List (String × ℚ)),
      (∀ kv ∈ wl, target.lookup kv.1 = some kv.2) →
      ∀ (pct tov total : ℚ),
        (rebalLoop quotes target ratio wl pct tov total).tov = tov := by
  intro wl
  induction wl with
  | nil => intro _ pct tov total; simp [rebalLoop]
  | cons kv rest ih =>
    intro hself pct tov total
    obtain ⟨sid, w⟩ := kv
    have hsid : target.lookup sid = some w := hself (sid, w) (List.mem_cons_self _ _)
    have hrest : ∀ kv ∈ rest, target.lookup kv.1 = some kv.2 :=
      fun kv hkv => hself kv (List.mem_cons_of_mem _ hkv)
    cases hq : quotes sid with
    | none => simp [rebalLoop, hsid, hq]
    | some pc => simp [rebalLoop, hsid, hq, ih hrest]

/-- Claim C6: `update_by_rebalance` with target weights equal to the
current weights yields turnover exactly 0 and cost exactly 0, whatever
the quotes are (the keys of the weight dict are distinct, as Python dict
keys always are). -/
theorem C6_rebalance_to_self_free (p : Portfolio) (quotes : String → Option ℚ)
    (hnd : (p.weight.map Prod.fst).Nodup) :
    (update_by_rebalance p p.weight quotes).1.turnover = 0 ∧
    (update_by_rebalance p p.weight quotes).1.cost = 0 := by
  have hself := lookup_self hnd
  have htov := rebalLoop_tov_self quotes p.weight p.trading_cost_ratio p.weight hself 0 0 0
  simp only [update_by_rebalance, sameKeys_self, if_true]
  cases herr : (rebalLoop quotes p.weight p.trading_cost_ratio p.weight 0 0 0).err with
  | some e => simp [herr, htov]
  | none =>
    by_cases ht : (rebalLoop quotes p.weight p.trading_cost_ratio p.weight 0 0 0).total
        + p.cash_weight = 0
    · simp [herr, if_pos ht, htov]
    · simp [herr, if_neg ht, htov]

theorem C6_rebalance_to_self_free_witness :
    (update_by_rebalance exPortfolio exPortfolio.weight exQuotes).1.turnover = 0 ∧
    (update_by_rebalance exPortfolio exPortfolio.weight exQuotes).1.cost = 0 :=
  C6_rebalance_to_self_free exPortfolio exQuotes (by decide)

/-! ## The missing zero guard on normalization (C10) -/

/-- The drift loop completes without error as soon as the quote dict
covers every asset in the weight dict. -/
lemma driftLoop_err_none (quotes : String → Option ℚ) :
    ∀ (wl : List (String × ℚ)), (∀ kv ∈ wl, (quotes kv.1).isSome) →
      ∀ (pct total : ℚ), (driftLoop quotes wl pct total).err = none := by
  intro wl
  induction wl with
  | nil => intro _ pct total; simp [driftLoop]
  | cons kv rest ih =>
    intro hq pct total
    obtain ⟨sid, w⟩ := kv
    obtain ⟨pc, hpc⟩ := Option.isSome_iff_exists.mp (hq (sid, w) (List.mem_cons_self _ _))
    have hrest : ∀ kv ∈ rest, (quotes kv.1).isSome :=
      fun kv hkv => hq kv (List.mem_cons_of_mem _ hkv)
    simp [driftLoop, hpc, ih hrest]

/-- The rebalance loop completes without error as soon as the target
dict and the quote dict cover every asset in the weight dict. -/
lemma rebalLoop_err_none (quotes : String → Option ℚ)
    (target : List (String × ℚ)) (ratio : ℚ) :
    ∀ (wl : List (String × ℚ)),
      (∀ kv ∈ wl, (target.lookup kv.1).isSome ∧ (quotes kv.1).isSome) →
      ∀ (pct tov total : ℚ),
        (rebalLoop quotes target ratio wl pct tov total).err = none := by
  intro wl
  induction wl with
  | nil => intro _ pct tov total; simp [rebalLoop]
  | cons kv rest ih =>
    intro hq pct tov total
    obtain ⟨sid, w⟩ := kv
    obtain ⟨htw, hqw⟩ := hq (sid, w) (List.mem_cons_self _ _)
    obtain ⟨twv, htwv⟩ := Option.isSome_iff_exists.mp htw
    obtain ⟨pc, hpc⟩ := Option.isSome_iff_exists.mp hqw
    have hrest : ∀ kv ∈ rest, (target.lookup kv.1).isSome ∧ (quotes kv.1).isSome :=
      fun kv hkv => hq kv (List.mem_cons_of_mem _ hkv)
    simp [rebalLoop, htwv, hpc, ih hrest]

/-- Claim C10: both update operations normalize by the post-drift total
(drifted asset weights plus cash) with no zero guard.  Under a complete
quote/target dict, if the total is nonzero the divisions succeed and the
call completes; if the total is zero the call fails at the division
(Python `ZeroDivisionError`). -/
theorem C10_division_by_total (p : Portfolio) (quotes : String → Option ℚ)
    (target : List (String × ℚ))
    (hq : ∀ kv ∈ p.weight, (quotes kv.1).isSome)
    (hqt : ∀ kv ∈ p.weight, (target.lookup kv.1).isSome)
    (hk : sameKeys p.weight target = true) :
    ((driftLoop quotes p.weight 0 0).total + p.cash_weight ≠ 0 →
      (update_by_price p quotes).2 = none) ∧
    ((driftLoop quotes p.weight 0 0).total + p.cash_weight = 0 →
      (update_by_price p quotes).2 = some .zeroDivision) ∧
    ((rebalLoop quotes target p.trading_cost_ratio p.weight 0 0 0).total + p.cash_weight ≠ 0 →
      (update_by_rebalance p target quotes).2 = none) ∧
    ((rebalLoop quotes target p.trading_cost_ratio p.weight 0 0 0).total + p.cash_weight = 0 →
      (update_by_rebalance p target quotes).2 = some .zeroDivision) := by
  have herr1 := driftLoop_err_none quotes p.weight hq 0 0
  have herr2 := rebalLoop_err_none quotes target p.trading_cost_ratio p.weight
    (fun kv hkv => ⟨hqt kv hkv, hq kv hkv⟩) 0 0 0
  refine ⟨fun ht => ?_, fun ht => ?_, fun ht => ?_, fun ht => ?_⟩
  · simp [update_by_price, herr1, if_neg ht]
  · simp [update_by_price, herr1, if_pos ht]
  · simp [update_by_rebalance, hk, herr2, if_neg ht]
  · simp [update_by_rebalance, hk, herr2, if_pos ht]

/-- A rebalance target for the example portfolio: A to 70%, B to 30%. -/
def exTarget : List (String × ℚ) := [("A", 7/10), ("B", 3/10)]

/-- The example portfolio with cash weight -1, so that the post-drift
total is 11/20 + 9/20 + (-1) = 0. -/
def exPortfolioNegCash : Portfolio :=
  ⟨-1, 0, 0, 0, 0, [("A", 1/2), ("B", 1/2)]⟩

theorem C10_division_by_total_witness :
    (update_by_price exPortfolio exQuotes).2 = none ∧
    (update_by_rebalance exPortfolio exTarget exQuotes).2 = none ∧
    (update_by_price exPortfolioNegCash exQuotes).2 = some PError.zeroDivision :=
  ⟨(C10_division_by_total exPortfolio exQuotes exTarget (by decide) (by decide)
      (by decide)).1
    (by simp +decide [driftLoop, exPortfolio, exQuotes]; norm_num),
   (C10_division_by_total exPortfolio exQuotes exTarget (by decide) (by decide)
      (by decide)).2.2.1
    (by simp +decide [rebalLoop, exPortfolio, exTarget, exQuotes, List.lookup]; norm_num),
   (C10_division_by_total exPortfolioNegCash exQuotes exTarget (by decide) (by decide)
      (by decide)).2.1
    (by simp +decide [driftLoop, exPortfolioNegCash, exQuotes]; norm_num)⟩

/-! ## The order-dependent rebalance computation (C2) -/

/-- The per-asset rebalance computation exactly as the claim describes
it (spec §4.1 steps 2-4), over total maps `pc` (period returns) and `tw`
(target weights): for each asset in order, increment the turnover by
`|currentWeight - targetWeight|`, set the weight to the target weight
minus the cumulative turnover so far (including this asset's own
contribution) times the cost ratio, accumulate the period return with
`weight * pctChange`, then drift the weight by `(1 + pctChange)`.
Returns (new weights, period return, total turnover). -/
def specRebalStep (pc tw : String → ℚ) (ratio : ℚ) :
    List (String × ℚ) → ℚ → ℚ → List (String × ℚ) × ℚ × ℚ
  | [], pct, tov => ([], pct, tov)
  | (sid, w) :: rest, pct, tov =>
    let tov1 := tov + |w - tw sid|
    let w1 := tw sid - tov1 * ratio
    let pct1 := pct + w1 * pc sid
    let w2 := w1 * (1 + pc sid)
    let r := specRebalStep pc tw ratio rest pct1 tov1
    ((sid, w2) :: r.1, r.2.1, r.2.2)

/-- The source loop refines the claim-side description whenever the
target and quote dicts cover every asset. -/
lemma rebalLoop_eq_spec (quotes : String → Option ℚ)
    (target : List (String × ℚ)) (pc tw : String → ℚ) (ratio : ℚ) :
    ∀ (wl : List (String × ℚ)),
      (∀ kv ∈ wl, target.lookup kv.1 = some (tw kv.1) ∧
        quotes kv.1 = some (pc kv.1)) →
      ∀ (pct tov total : ℚ),
        rebalLoop quotes target ratio wl pct tov total =
          ⟨(specRebalStep pc tw ratio wl pct tov).1,
           (specRebalStep pc tw ratio wl pct tov).2.1,
           (specRebalStep pc tw ratio wl pct tov).2.2,
           total + sumW (specRebalStep pc tw ratio wl pct tov).1,
           none⟩ := by
  intro wl
  induction wl with
  | nil => intro _ pct tov total; simp [rebalLoop, specRebalStep, sumW]
  | cons kv rest ih =>
    intro h pct tov total
    obtain ⟨sid, w⟩ := kv
    obtain ⟨ht, hq⟩ := h (sid, w) (List.mem_cons_self _ _)
    have hrest : ∀ kv ∈ rest, target.lookup kv.1 = some (tw kv.1) ∧
        quotes kv.1 = some (pc kv.1) :=
      fun kv hkv => h kv (List.mem_cons_of_mem _ hkv)
    simp only [rebalLoop, specRebalStep, ht, hq]
    rw [ih hrest]
    simp only [RebalRes.mk.injEq, sumW_cons, true_and, and_true]
    ring_nf

/-- Claim C2: in `update_by_rebalance`, assets are processed one at a
time in weight-vector order; for each asset the turnover is incremented
first, then the weight is set to the target minus the cumulative
turnover so far (including this asset) times the cost ratio, then the
period return is accumulated, then the weight is drifted; the final cost
equals the total turnover times the cost ratio. -/
theorem C2_rebalance_sequencing (p : Portfolio) (quotes : String → Option ℚ)
    (target : List (String × ℚ)) (pc tw : String → ℚ)
    (h : ∀ kv ∈ p.weight, target.lookup kv.1 = some (tw kv.1) ∧
      quotes kv.1 = some (pc kv.1))
    (hk : sameKeys p.weight target = true) :
    rebalLoop quotes target p.trading_cost_ratio p.weight 0 0 0 =
      ⟨(specRebalStep pc tw p.trading_cost_ratio p.weight 0 0).1,
       (specRebalStep pc tw p.trading_cost_ratio p.weight 0 0).2.1,
       (specRebalStep pc tw p.trading_cost_ratio p.weight 0 0).2.2,
       sumW (specRebalStep pc tw p.trading_cost_ratio p.weight 0 0).1,
       none⟩ ∧
    (update_by_rebalance p target quotes).1.cost =
      (specRebalStep pc tw p.trading_cost_ratio p.weight 0 0).2.2
        * p.trading_cost_ratio := by
  have hmain := rebalLoop_eq_spec quotes target pc tw p.trading_cost_ratio
    p.weight h 0 0 0
  constructor
  · rw [hmain, zero_add]
  · simp only [update_by_rebalance, hk, if_true]
    rw [hmain]
    by_cases ht0 : (RebalRes.err ⟨(specRebalStep pc tw p.trading_cost_ratio p.weight 0 0).1,
        (specRebalStep pc tw p.trading_cost_ratio p.weight 0 0).2.1,
        (specRebalStep pc tw p.trading_cost_ratio p.weight 0 0).2.2,
        0 + sumW (specRebalStep pc tw p.trading_cost_ratio p.weight 0 0).1,
        none⟩) = none
    · simp only
      split <;> simp
    · simp at ht0

/-- Total period-return map matching `exQuotes`. -/
def exPc : String → ℚ := fun s => if s = "A" then 1/10 else -(1/10)

/-- Total target-weight map matching `exTarget`. -/
def exTw : String → ℚ := fun s => if s = "A" then 7/10 else 3/10

theorem C2_rebalance_sequencing_witness :
    rebalLoop exQuotes exTarget exPortfolio.trading_cost_ratio
        exPortfolio.weight 0 0 0 =
      ⟨(specRebalStep exPc exTw exPortfolio.trading_cost_ratio
          exPortfolio.weight 0 0).1,
       (specRebalStep exPc exTw exPortfolio.trading_cost_ratio
          exPortfolio.weight 0 0).2.1,
       (specRebalStep exPc exTw exPortfolio.trading_cost_ratio
          exPortfolio.weight 0 0).2.2,
       sumW (specRebalStep exPc exTw exPortfolio.trading_cost_ratio
          exPortfolio.weight 0 0).1,
       none⟩ ∧
    (update_by_rebalance exPortfolio exTarget exQuotes).1.cost =
      (specRebalStep exPc exTw exPortfolio.trading_cost_ratio
          exPortfolio.weight 0 0).2.2 * exPortfolio.trading_cost_ratio :=
  C2_rebalance_sequencing exPortfolio exQuotes exTarget exPc exTw
    (by
      rw [show exPortfolio.weight = [("A", 1/2), ("B", 1/2)] from rfl]
      simp only [List.forall_mem_cons, List.forall_mem_nil]
      exact ⟨⟨rfl, rfl⟩, ⟨rfl, rfl⟩, List.forall_mem_nil _⟩)
    rfl

/-! ## Partial mutation of `update_by_price` on a missing quote (C8) -/

/-- The drifted weights of the assets iterated before the missing one:
each multiplied by `(1 + pct_change)`, un-normalized. -/
def driftedPre (quotes : String → Option ℚ) (pre : List (String × ℚ)) :
    List (String × ℚ) :=
  pre.map (fun kv => (kv.1, kv.2 * (1 + (quotes kv.1).getD 0)))

/-- The period return accumulated over the assets iterated before the
missing one. -/
def driftedPrePct (quotes : String → Option ℚ)
    (pre : List (String × ℚ)) : ℚ :=
  (pre.map (fun kv => kv.2 * (quotes kv.1).getD 0)).sum

/-- Where exactly the drift loop stops on the first missing quote. -/
lemma driftLoop_missing (quotes : String → Option ℚ) (sid : String)
    (w : ℚ) (post : List (String × ℚ)) (hsid : quotes sid = none) :
    ∀ (pre : List (String × ℚ)), (∀ kv ∈ pre, (quotes kv.1).isSome) →
      ∀ (pct total : ℚ),
        driftLoop quotes (pre ++ (sid, w) :: post) pct total =
          ⟨driftedPre quotes pre ++ (sid, w) :: post,
           pct + driftedPrePct quotes pre,
           total + sumW (driftedPre quotes pre), some sid⟩ := by
  intro pre
  induction pre with
  | nil =>
    intro _ pct total
    simp [driftLoop, hsid, driftedPre, driftedPrePct, sumW]
  | cons kv rest ih =>
    intro hpre pct total
    obtain ⟨k, v⟩ := kv
    obtain ⟨pc, hpc⟩ := Option.isSome_iff_exists.mp (hpre (k, v) (List.mem_cons_self _ _))
    have hrest : ∀ kv ∈ rest, (quotes kv.1).isSome :=
      fun kv hkv => hpre kv (List.mem_cons_of_mem _ hkv)
    simp only [List.cons_append, driftLoop, hpc, List.append_eq]
    rw [ih hrest]
    simp only [DriftRes.mk.injEq, driftedPre, driftedPrePct, List.map_cons,
      List.cons_append, sumW_cons, List.sum_cons, hpc, Option.getD_some,
      true_and, and_true]
    constructor <;> ring

/-- Claim C8: `update_by_price` is not atomic on its error path.  If the
quote dict lacks an entry for some asset of the weight vector (here, the
first such asset, at position `pre.length`), the call raises
`missingQuote` there and leaves the Portfolio partially mutated:
turnover, cost and the period return were already reset (the period
return holds the partial sum over the earlier assets), the assets before
the missing one carry their drifted un-normalized weights, the rest
(missing one included) are untouched, the cash weight is untouched, and
no normalization is performed. -/
theorem C8_price_update_partial_on_missing_quote (p : Portfolio)
    (quotes : String → Option ℚ) (pre post : List (String × ℚ))
    (sid : String) (w : ℚ)
    (hw : p.weight = pre ++ (sid, w) :: post)
    (hpre : ∀ kv ∈ pre, (quotes kv.1).isSome)
    (hsid : quotes sid = none) :
    update_by_price p quotes =
      ({ p with
          weight := driftedPre quotes pre ++ (sid, w) :: post,
          pct_change := driftedPrePct quotes pre,
          cost := 0, turnover := 0 }, some (.missingQuote sid)) := by
  simp only [update_by_price, hw]
  rw [driftLoop_missing quotes sid w post hsid pre hpre 0 0]
  simp

/-- Quotes that cover only asset A. -/
def exQuotesA : String → Option ℚ :=
  fun s => if s = "A" then some (1/10) else none

theorem C8_price_update_partial_on_missing_quote_witness :
    update_by_price exPortfolio exQuotesA =
      ({ exPortfolio with
          weight := driftedPre exQuotesA [("A", 1/2)] ++ [("B", 1/2)],
          pct_change := driftedPrePct exQuotesA [("A", 1/2)],
          cost := 0, turnover := 0 }, some (.missingQuote "B")) :=
  C8_price_update_partial_on_missing_quote exPortfolio exQuotesA
    [("A", 1/2)] [] "B" (1/2) rfl
    (by
      simp only [List.forall_mem_cons, List.forall_mem_nil]
      exact ⟨rfl, List.forall_mem_nil _⟩)
    rfl

/-! ## The backtest driver (`strategy.py`) -/

/-- One step's quote record: the `'time'` entry of the quotes dict plus
the per-asset period returns. -/
structure QuoteRec where
  time : Int
  quotes : String → Option ℚ

/-- What the strategy decision hook `_on_data` does in one step: per the
§6 contract it calls exactly one of the two Portfolio updates. -/
inductive StepAction where
  | price
  | rebalance (target : List (String × ℚ))

/-- Apply one step's decision to the portfolio. -/
def applyAction (p : Portfolio) (q : QuoteRec) :
    StepAction → Portfolio × Option PError
  | .price => update_by_price p q.quotes
  | .rebalance target => update_by_rebalance p target q.quotes

/-- The driver state of `Strategy`: `_cursor`, `_portfolio` and the
accumulated `_records` list. -/
structure RunState where
  cursor : Nat
  portfolio : Portfolio
  records : List PInfo
deriving DecidableEq, Repr

/-- `Strategy._on_quotes` plus the replay loop of `run` (strategy.py
lines 150-157): for each quote record, in feed order, run the decision
hook, append the snapshot to `_records`, and advance the cursor.  An
exception aborts immediately: the failing step's record is not appended
and the cursor is not advanced, but the portfolio keeps whatever
partial mutation the update left behind. -/
def runLoop (hook : Nat → QuoteRec → StepAction) (st : RunState) :
    List QuoteRec → RunState × Option PError
  | [] => (st, none)
  | q :: rest =>
    let pr := applyAction st.portfolio q (hook st.cursor q)
    match pr.2 with
    | some e => ({ st with portfolio := pr.1 }, some e)
    | none =>
      runLoop hook
        { st with
            portfolio := pr.1,
            records := st.records ++ [get_portfolio_info q.time pr.1],
            cursor := st.cursor + 1 } rest

/-- The list of snapshots the loop is expected to accumulate: one
`get_portfolio_info` record per successful step, each taken from the
portfolio state immediately after that step's update. -/
def snapshotTrace (hook : Nat → QuoteRec → StepAction) (cursor : Nat)
    (p : Portfolio) : List QuoteRec → List PInfo
  | [] => []
  | q :: rest =>
    let pr := applyAction p q (hook cursor q)
    match pr.2 with
    | some _ => []
    | none => get_portfolio_info q.time pr.1 ::
        snapshotTrace hook (cursor + 1) pr.1 rest

/-- Line 169-171: the per-period return series (`.dropna()` is the
identity in the rational model: no entry is NaN). -/
def sRetOf (records : List PInfo) : List (Int × ℚ) :=
  records.map (fun r => (r.time, r.pct_change))

/-- Lines 178-181: the turnover series. -/
def turnoverOf (records : List PInfo) : List (Int × ℚ) :=
  records.map (fun r => (r.time, r.turnover))

/-- Lines 184-187: the cost series. -/
def costOf (records : List PInfo) : List (Int × ℚ) :=
  records.map (fun r => (r.time, r.cost))

/-- Insert an entry into a time-indexed series, keeping times sorted. -/
def insertByTime (x : Int × ℚ) : List (Int × ℚ) → List (Int × ℚ)
  | [] => [x]
  | y :: ys => if x.1 ≤ y.1 then x :: y :: ys else y :: insertByTime x ys

/-- `Series.sort_index()`: insertion sort by timestamp. -/
def sortByTime (l : List (Int × ℚ)) : List (Int × ℚ) :=
  l.foldr insertByTime []

/-- `add_value_on_first` (strategy.py lines 266-272): insert `value` at
`s.index[0]` minus one period and re-sort.  On an empty series
`s.index[0]` raises `IndexError`, modelled by `none`.  One period is one
unit of the integer timestamp (`pd.Timedelta('1D')` in the source). -/
def add_value_on_first (s : List (Int × ℚ)) (value : ℚ) :
    Option (List (Int × ℚ)) :=
  match s with
  | [] => none
  | (t, _) :: _ => some (sortByTime ((t - 1, value) :: s))

/-- `(s_ret + 1).cumprod()`: add one to each value and take the running
product, starting from `acc`. -/
def cumprodSeries (acc : ℚ) : List (Int × ℚ) → List (Int × ℚ)
  | [] => []
  | (t, r) :: rest => (t, acc * (r + 1)) :: cumprodSeries (acc * (r + 1)) rest

/-- Lines 174-175: the net value series — cumulative product of
`(1 + periodReturn)` prepended with 1.0 one period before the first
return (`.dropna()` again the identity in the rational model). -/
def buildNv (sret : List (Int × ℚ)) : Option (List (Int × ℚ)) :=
  add_value_on_first (cumprodSeries 1 sret) 1

/-- Lines 190-193: the rebalance-weight series built from the
process-scoped rebalance log `Context.rebalance`: one row per logged
event `(time, recorded target weights)`, and a derived cash column
computed by the source as `self._rebalance_weight.sum(axis=1) - 1`,
i.e. the row's weight sum minus one. -/
def buildRebalanceWeight (log : List (Int × List (String × ℚ))) :
    List (Int × List (String × ℚ) × ℚ) :=
  log.map (fun it => (it.1, it.2, sumW it.2 - 1))

/-- Errors of `Strategy.run`: the failed single-use assert (line 144),
an exception from a step's update (re-raised, line 155), and the
`IndexError` from `add_value_on_first` on an empty series. -/
inductive RunError where
  | alreadyRun
  | stepError (e : PError)
  | emptyIndex
deriving DecidableEq, Repr

/-- What a completed `run` leaves on the `Strategy` object: the final
driver state and the derived series `_s_ret`, `_nv`, `_turnover`,
`_cost`. -/
structure RunResult where
  state : RunState
  sRet : List (Int × ℚ)
  nv : List (Int × ℚ)
  turnoverS : List (Int × ℚ)
  costS : List (Int × ℚ)
deriving DecidableEq, Repr

/-- `Strategy.run` (strategy.py lines 140-196): assert the cursor is at
its initial value 0, replay the feed, then aggregate the records into
the derived series (the weight frame and the rebalance-weight frame,
which cannot fail before the net-value step, are modelled separately). -/
def run (hook : Nat → QuoteRec → StepAction) (st : RunState)
    (feed : List QuoteRec) : Except RunError RunResult :=
  if st.cursor = 0 then
    match runLoop hook st feed with
    | (_, some e) => .error (.stepError e)
    | (st1, none) =>
      match buildNv (sRetOf st1.records) with
      | none => .error .emptyIndex
      | some nv =>
        .ok ⟨st1, sRetOf st1.records, nv, turnoverOf st1.records,
          costOf st1.records⟩
  else .error .alreadyRun

/-! ## Frame property of the record list (C9) -/

/-- The loop's `_records` list is the initial list extended, without
modification of existing entries, by one snapshot per successful step,
each equal to `get_portfolio_info` of the portfolio state right after
that step's update. -/
lemma runLoop_records (hook : Nat → QuoteRec → StepAction) :
    ∀ (feed : List QuoteRec) (st : RunState),
      ((runLoop hook st feed).1).records =
        st.records ++ snapshotTrace hook st.cursor st.portfolio feed := by
  intro feed
  induction feed with
  | nil => intro st; simp [runLoop, snapshotTrace]
  | cons q rest ih =>
    intro st
    cases hpr : (applyAction st.portfolio q (hook st.cursor q)).2 with
    | some e => simp [runLoop, snapshotTrace, hpr]
    | none =>
      simp only [runLoop, snapshotTrace, hpr]
      rw [ih]
      simp [List.append_assoc]

/-- Claim C9: snapshots are immutable copies.  Each entry of the
accumulated record list equals the `get_portfolio_info` snapshot taken
from the portfolio state right after its own step, and later steps only
append — they never change previously recorded entries (in the source
this holds because `get_portfolio_info` copies the weights into
`tuple(self._weight.items())` rather than aliasing the live dict). -/
theorem C9_snapshots_never_mutated (hook : Nat → QuoteRec → StepAction)
    (st : RunState) (feed : List QuoteRec) :
    ((runLoop hook st feed).1).records =
      st.records ++ snapshotTrace hook st.cursor st.portfolio feed :=
  runLoop_records hook feed st

/-! ## Empty feed (C4) and the single-use guard (C7) -/

/-- A completed loop advanced the cursor once per quote and recorded the
quote timestamps in feed order. -/
lemma runLoop_ok_cursor_times (hook : Nat → QuoteRec → StepAction) :
    ∀ (feed : List QuoteRec) (st st1 : RunState),
      runLoop hook st feed = (st1, none) →
      st1.cursor = st.cursor + feed.length ∧
      st1.records.map PInfo.time =
        st.records.map PInfo.time ++ feed.map QuoteRec.time := by
  intro feed
  induction feed with
  | nil =>
    intro st st1 h
    simp only [runLoop] at h
    injection h with h1 _
    subst h1
    simp
  | cons q rest ih =>
    intro st st1 h
    cases hpr : (applyAction st.portfolio q (hook st.cursor q)).2 with
    | some e => simp [runLoop, hpr] at h
    | none =>
      simp only [runLoop, hpr] at h
      obtain ⟨hc, htimes⟩ := ih _ st1 h
      simp only at hc htimes
      constructor
      · rw [hc]
        simp only [List.length_cons]
        omega
      · rw [htimes]
        simp [get_portfolio_info]

/-- Claim C4 fails on the code: with an empty Quote Feed, `run` performs
zero steps but then raises while aggregating — `add_value_on_first`
indexes `s.index[0]` of the empty net-value series (`IndexError`) — so
it does not complete normally. -/
theorem C4_empty_feed_counterexample :
    run (fun _ _ => StepAction.price) ⟨0, exPortfolio, []⟩ [] =
      .error .emptyIndex := rfl

/-- Claim C4 amended: on an empty Quote Feed the replay loop completes
with zero steps and an empty record list, but `run` does not complete:
result aggregation fails with the `IndexError` raised by
`add_value_on_first` on the empty series, so no derived series are
produced. -/
theorem C4_empty_feed_raises (hook : Nat → QuoteRec → StepAction)
    (st : RunState) (hc : st.cursor = 0) (hr : st.records = []) :
    runLoop hook st [] = (st, none) ∧
    run hook st [] = .error .emptyIndex := by
  refine ⟨rfl, ?_⟩
  simp [run, hc, hr, runLoop, sRetOf, buildNv, cumprodSeries,
    add_value_on_first]

theorem C4_empty_feed_raises_witness :
    runLoop (fun _ _ => StepAction.price) ⟨0, exPortfolioNegCash, []⟩ [] =
      (⟨0, exPortfolioNegCash, []⟩, none) ∧
    run (fun _ _ => StepAction.price) ⟨0, exPortfolioNegCash, []⟩ [] =
      .error .emptyIndex :=
  C4_empty_feed_raises (fun _ _ => StepAction.price)
    ⟨0, exPortfolioNegCash, []⟩ rfl rfl

/-- Claim C7: once a `run` has completed on a driver instance (started,
as constructed, with cursor 0 and no records), any second `run` call on
the resulting instance fails with the single-use assert (AlreadyRunError),
because the internal step counter is no longer at its initial value 0. -/
theorem C7_run_is_single_use (hook hook2 : Nat → QuoteRec → StepAction)
    (st : RunState) (feed feed2 : List QuoteRec) (res : RunResult)
    (hr : st.records = []) (h : run hook st feed = .ok res) :
    run hook2 res.state feed2 = .error .alreadyRun := by
  simp only [run] at h
  by_cases hc : st.cursor = 0
  · rw [if_pos hc] at h
    split at h
    · simp at h
    · rename_i st1 hloop
      split at h
      · simp at h
      · rename_i nv hnv
        simp only [Except.ok.injEq] at h
        have hstate : res.state = st1 := by rw [← h]
        obtain ⟨hc1, htimes⟩ := runLoop_ok_cursor_times hook feed st st1 hloop
        have hne : st1.records ≠ [] := by
          intro hemp
          rw [hemp] at hnv
          simp [sRetOf, buildNv, cumprodSeries, add_value_on_first] at hnv
        have hlen : feed.length ≠ 0 := by
          intro hfe
          apply hne
          have := congrArg List.length htimes
          simp [hr, hfe] at this
          exact this
        have : res.state.cursor ≠ 0 := by
          rw [hstate, hc1, hc]
          omega
        simp [run, this]
  · rw [if_neg hc] at h
    simp at h

/-- A one-step feed for the driver examples. -/
def exQuoteRec : QuoteRec := ⟨5, exQuotes⟩

/-- A decision hook that always drifts. -/
def exHook : Nat → QuoteRec → StepAction := fun _ _ => StepAction.price

/-- A freshly constructed driver state. -/
def exState : RunState := ⟨0, exPortfolio, []⟩

/-- The snapshot recorded by the single drift step of the example run. -/
def exPInfo : PInfo := ⟨5, 0, 0, 0, 0, [("A", 11/20), ("B", 9/20)]⟩

/-- The result of the one-step example run. -/
def exRes : RunResult :=
  ⟨⟨1, exPortfolioAfter, [exPInfo]⟩, [(5, 0)], [(4, 1), (5, 1)],
   [(5, 0)], [(5, 0)]⟩

theorem C7_run_is_single_use_witness :
    run exHook exRes.state [] = .error .alreadyRun :=
  C7_run_is_single_use exHook exHook exState [exQuoteRec] [] exRes rfl
    (by
      simp +decide [run, runLoop, applyAction, exHook, exState, exQuoteRec,
        exRes, exPortfolio, exPortfolioAfter, exPInfo, exQuotes,
        update_by_price, driftLoop, get_portfolio_info, sRetOf, buildNv,
        cumprodSeries, add_value_on_first, sortByTime, insertByTime,
        turnoverOf, costOf]
      norm_num [cumprodSeries, sortByTime, insertByTime, List.foldr])

/-! ## The rebalance-weight cash column (C3) -/

/-- Claim C3 meets a code bug: for a logged rebalance event with
recorded weights A=3/5, B=3/10, the source computes the derived cash
column as `row.sum(axis=1) - 1 = -1/10` (strategy.py line 193), while
the documented value `1 - sum(recorded asset weights)` is `1/10`; the
two differ. -/
theorem C3_rebalance_cash_sign :
    buildRebalanceWeight [(0, [("A", 3/5), ("B", 3/10)])] =
      [(0, [("A", 3/5), ("B", 3/10)], -(1/10))] ∧
    (1 : ℚ) - sumW [("A", 3/5), ("B", 3/10)] = 1/10 ∧
    (-(1/10) : ℚ) ≠ 1/10 := by
  refine ⟨?_, by norm_num [sumW], by norm_num⟩
  norm_num [buildRebalanceWeight, sumW]

/-! ## The net value series (C5) -/

lemma cumprodSeries_times : ∀ (l : List (Int × ℚ)) (acc : ℚ),
    (cumprodSeries acc l).map Prod.fst = l.map Prod.fst := by
  intro l
  induction l with
  | nil => intro acc; simp [cumprodSeries]
  | cons hd rest ih =>
    intro acc
    obtain ⟨t, r⟩ := hd
    simp [cumprodSeries, ih]

/-- Insertion sort is the identity on a series already sorted by time. -/
lemma sortByTime_sorted_id : ∀ (l : List (Int × ℚ)),
    List.Chain' (· ≤ ·) (l.map Prod.fst) → sortByTime l = l := by
  intro l
  induction l with
  | nil => intro _; rfl
  | cons y ys ih =>
    intro hch
    simp only [List.map_cons, List.chain'_cons'] at hch
    obtain ⟨hhead, htail⟩ := hch
    have : sortByTime (y :: ys) = insertByTime y (sortByTime ys) := rfl
    rw [this, ih htail]
    cases ys with
    | nil => rfl
    | cons z zs =>
      have hz : y.1 ≤ z.1 := by
        apply hhead
        simp
      simp [insertByTime, hz]

/-- On a strictly time-sorted nonempty return series, the net value
series is the cumulative product list with `(t0 - 1, 1)` prepended. -/
lemma buildNv_eq_of_sorted (t0 : Int) (r0 : ℚ) (rest : List (Int × ℚ))
    (hsort : List.Chain' (· < ·) (((t0, r0) :: rest).map Prod.fst)) :
    buildNv ((t0, r0) :: rest) =
      some ((t0 - 1, 1) :: cumprodSeries 1 ((t0, r0) :: rest)) := by
  have hch : List.Chain' (· ≤ ·)
      ((cumprodSeries 1 ((t0, r0) :: rest)).map Prod.fst) := by
    rw [cumprodSeries_times]
    exact hsort.imp (fun a b hab => le_of_lt hab)
  have hid := sortByTime_sorted_id _ hch
  have hcp : cumprodSeries 1 ((t0, r0) :: rest) =
      (t0, 1 * (r0 + 1)) :: cumprodSeries (1 * (r0 + 1)) rest := rfl
  rw [show buildNv ((t0, r0) :: rest) =
    add_value_on_first (cumprodSeries 1 ((t0, r0) :: rest)) 1 from rfl]
  rw [hcp]
  simp only [add_value_on_first]
  rw [show sortByTime ((t0 - 1, 1) :: (t0, 1 * (r0 + 1)) ::
        cumprodSeries (1 * (r0 + 1)) rest) =
      insertByTime (t0 - 1, 1) (sortByTime ((t0, 1 * (r0 + 1)) ::
        cumprodSeries (1 * (r0 + 1)) rest)) from rfl]
  rw [← hcp, hid, hcp]
  simp only [insertByTime]
  rw [if_pos (by omega)]

/-- In the list `acc :: cumprod`, every entry equals the previous one
times `(1 + return)`. -/
lemma cumprod_vals_rec : ∀ (l : List (Int × ℚ)) (a : ℚ) (i : Nat),
    i + 1 < (a :: (cumprodSeries a l).map Prod.snd).length →
    (a :: (cumprodSeries a l).map Prod.snd).getD (i + 1) 0 =
      (a :: (cumprodSeries a l).map Prod.snd).getD i 0 *
        (1 + (l.map Prod.snd).getD i 0) := by
  intro l
  induction l with
  | nil => intro a i h; simp [cumprodSeries] at h
  | cons hd rest ih =>
    intro a i h
    obtain ⟨t, r⟩ := hd
    cases i with
    | zero =>
      simp only [cumprodSeries, List.map_cons, List.getD_cons_succ,
        List.getD_cons_zero]
      ring
    | succ i =>
      have hlen : i + 1 <
          ((a * (r + 1)) :: (cumprodSeries (a * (r + 1)) rest).map Prod.snd).length := by
        simp only [cumprodSeries, List.map_cons, List.length_cons,
          List.length_map] at h ⊢
        omega
      simp only [cumprodSeries, List.map_cons, List.getD_cons_succ]
      exact ih (a * (r + 1)) i hlen

/-- Claim C5: for every run that completes on a strictly
time-increasing feed (started from a freshly constructed driver), the
net value series starts with the value exactly 1 at a synthetic
timestamp one period before the first quote, and every subsequent entry
equals the previous entry times `(1 + that period's return)`. -/
theorem C5_net_value_recurrence (hook : Nat → QuoteRec → StepAction)
    (st : RunState) (feed : List QuoteRec) (res : RunResult)
    (hr : st.records = [])
    (hsort : List.Chain' (· < ·) (feed.map QuoteRec.time))
    (h : run hook st feed = .ok res) :
    (res.nv.map Prod.snd).head? = some 1 ∧
    (res.nv.map Prod.fst).head? = (feed.map QuoteRec.time).head?.map (· - 1) ∧
    ∀ i, i + 1 < res.nv.length →
      (res.nv.map Prod.snd).getD (i + 1) 0 =
        (res.nv.map Prod.snd).getD i 0 *
          (1 + (res.sRet.map Prod.snd).getD i 0) := by
  simp only [run] at h
  by_cases hc : st.cursor = 0
  · rw [if_pos hc] at h
    split at h
    · simp at h
    · rename_i st1 hloop
      split at h
      · simp at h
      · rename_i nv hnv
        simp only [Except.ok.injEq] at h
        subst h
        obtain ⟨-, htimes⟩ := runLoop_ok_cursor_times hook feed st st1 hloop
        rw [hr] at htimes
        simp only [List.map_nil, List.nil_append] at htimes
        have hfst : (sRetOf st1.records).map Prod.fst = feed.map QuoteRec.time := by
          rw [← htimes, sRetOf, List.map_map]
          rfl
        have hsort' : List.Chain' (· < ·) ((sRetOf st1.records).map Prod.fst) := by
          rw [hfst]; exact hsort
        cases hsr : sRetOf st1.records with
        | nil =>
          rw [hsr] at hnv
          simp [buildNv, cumprodSeries, add_value_on_first] at hnv
        | cons hd tl =>
          obtain ⟨t0, r0⟩ := hd
          rw [hsr] at hnv hsort' hfst
          have hbe := buildNv_eq_of_sorted t0 r0 tl hsort'
          rw [hbe] at hnv
          have hnveq : nv = (t0 - 1, 1) :: cumprodSeries 1 ((t0, r0) :: tl) :=
            ((Option.some.injEq _ _).mp hnv).symm
          refine ⟨?_, ?_, ?_⟩
          · simp only [hnveq]
            simp
          · simp only [hnveq, ← hfst]
            simp
          · intro i hib
            simp only [hnveq, hsr] at hib ⊢
            have := cumprod_vals_rec ((t0, r0) :: tl) 1 i
              (by
                simp only [List.length_cons, List.length_map] at hib ⊢
                omega)
            simpa using this
  · rw [if_neg hc] at h
    simp at h

theorem C5_net_value_recurrence_witness :
    (exRes.nv.map Prod.snd).head? = some 1 ∧
    (exRes.nv.map Prod.snd).getD 1 0 =
      (exRes.nv.map Prod.snd).getD 0 0 *
        (1 + (exRes.sRet.map Prod.snd).getD 0 0) := by
  have h := C5_net_value_recurrence exHook exState [exQuoteRec] exRes rfl
    (by simp)
    (by
      simp +decide [run, runLoop, applyAction, exHook, exState, exQuoteRec,
        exRes, exPortfolio, exPortfolioAfter, exPInfo, exQuotes,
        update_by_price, driftLoop, get_portfolio_info, sRetOf, buildNv,
        cumprodSeries, add_value_on_first, sortByTime, insertByTime,
        turnoverOf, costOf]
      norm_num [cumprodSeries, sortByTime, insertByTime, List.foldr])
  exact ⟨h.1, h.2.2 0 (by simp [exRes])⟩
